import Mathlib

/-!
Verification of the Conforama bulk phone-extraction core.

Shallow embedding of the repository's two central modules:

* `conforama_session.py` — the per-credential HTTP session (outcomes of the
  four network steps are supplied by an oracle) and, fully concretely, the
  nine-pattern extraction cascade `extract_phone_number`.  Each Python regex
  of the cascade is translated into an explicit matching function with
  `re.findall` scanning semantics (leftmost, non-overlapping, IGNORECASE;
  a pattern with one capture group yields the group's text, a pattern with
  none yields the whole match).  The character classes `\d`, `\s`, `\w` are
  modelled over the ASCII range the patterns exercise, plus the one
  non-ASCII letter appearing in them (the 'ó' of "móvil").
* `phone_extractor.py` — `PhoneResult`, the per-credential workflow
  `process_single_account` (network outcomes supplied by the same oracle,
  invoked operations recorded in a trace), and the threaded dispatcher
  `process_accounts_threaded` (thread completion supplied by a schedule,
  the cooperative stop flag read at the same program points as the source,
  one clock tick per read).
-/

namespace Conforama

/-! ## Character classes of the Python patterns -/

def isDigitC (c : Char) : Bool := c.isDigit

def isSpaceC (c : Char) : Bool :=
  c = ' ' || c = '\t' || c = '\n' || c = '\r' || c = '\x0b' || c = '\x0c'

def isWordC (c : Char) : Bool := c.isAlphanum || c = '_'

/-- IGNORECASE folding: ASCII letters plus the 'ó' of the pattern "móvil". -/
def lowerC (c : Char) : Char := if c = 'Ó' then 'ó' else c.toLower

/-! ## Match cleaning and validation (body of the cascade's inner loop)

`phone = re.sub(r'[^\d+]', '', phone)`, then
`if phone and len(phone) >= 9:` search `re.search(r'\d{9}', phone)` and
return its text iff it starts with '6'. -/

def keepC (c : Char) : Bool := isDigitC c || c = '+'

def cleanPhone (m : List Char) : List Char := m.filter keepC

/-- `\d{9}` matches at the head of `l`: at least 9 characters remain and the
first 9 are digits. -/
def digitRun9 (l : List Char) : Bool :=
  decide (9 ≤ l.length) && (l.take 9).all isDigitC

/-- `re.search(r'\d{9}', ·)`: the match at the leftmost position where nine
consecutive digits start. -/
def search9 : List Char → Option (List Char)
  | [] => none
  | c :: s => if digitRun9 (c :: s) then some ((c :: s).take 9) else search9 s

/-- Processing of one `findall` match inside `extract_phone_number`'s loop:
clean, gate on length, search for nine digits, return iff leading '6'. -/
def validateMatch (m : List Char) : Option (List Char) :=
  if cleanPhone m ≠ [] ∧ 9 ≤ (cleanPhone m).length then
    match search9 (cleanPhone m) with
    | some number => if number.head? = some '6' then some number else none
    | none => none
  else none

/-! ## The nine regex patterns

A matcher is applied at one text position; it receives the previous character
(for the word boundary of pattern 7) and the suffix, and yields the emitted
string (capture group, or whole match when the pattern has no group) and the
number of characters the match consumed. -/

abbrev Matcher := Option Char → List Char → Option (List Char × Nat)

/-- `[6-9]\d{8}` (resp. `[8-9]\d{8}`) matches at the head of `s`;
`first` lists the admissible leading digits. -/
def coreAt (first : List Char) : List Char → Bool
  | c :: rest => first.contains c && decide (8 ≤ rest.length) && (rest.take 8).all isDigitC
  | [] => false

/-- Patterns 1 and 2, `(\+34\s?)?[6-9]\d{8}` and `(\+34\s?)?[8-9]\d{8}`:
`findall` emits the text of the single (optional) capture group.  Alternatives
in the regex engine's backtracking order: group with its optional whitespace,
group without it, then no group at all (at a position starting with "+34" the
group-less alternative can never fire, since '+' is not an admissible leading
digit). -/
def matchCC (first : List Char) : Matcher := fun _ s =>
  match s with
  | '+' :: '3' :: '4' :: rest =>
    match rest with
    | w :: r2 =>
      if isSpaceC w && coreAt first r2 then some (['+', '3', '4', w], 13)
      else if coreAt first rest then some (['+', '3', '4'], 12)
      else none
    | [] => if coreAt first rest then some (['+', '3', '4'], 12) else none
  | _ => if coreAt first s then some ([], 9) else none

/-- Case-insensitive literal at the head of the text; yields the remainder. -/
def stripCaseless : List Char → List Char → Option (List Char)
  | [], s => some s
  | _ :: _, [] => none
  | l :: ls, c :: s => if lowerC c = lowerC l then stripCaseless ls s else none

/-- Patterns 3–6, `LIT[^>]*>([^<]+)` for LIT ∈ {tel, phone, telefono, móvil}:
after the literal, `[^>]*` runs exactly up to the next '>', and the group
takes every following character up to the next '<' (at least one). -/
def matchTag (lit : List Char) : Matcher := fun _ s =>
  match stripCaseless lit s with
  | none => none
  | some rest =>
    let pre := rest.takeWhile (fun c => c ≠ '>')
    match rest.dropWhile (fun c => c ≠ '>') with
    | '>' :: after =>
      let grp := after.takeWhile (fun c => c ≠ '<')
      if grp ≠ [] then some (grp, lit.length + pre.length + 1 + grp.length) else none
    | _ => none

/-- Three leading digits of `\d{3}`. -/
def take3 : List Char → Option (List Char × List Char)
  | a :: b :: c :: r =>
    if isDigitC a && isDigitC b && isDigitC c then some ([a, b, c], r) else none
  | _ => none

/-- `[-\s]?`: one separator when present.  A separator is never a digit, so
the regex alternative that skips a present separator always fails at the next
`\d{3}` and backtracking cannot change the outcome. -/
def sepSplit : List Char → (List Char × List Char)
  | c :: r => if c = '-' || isSpaceC c then ([c], r) else ([], c :: r)
  | [] => ([], [])

/-- Trailing `\b` after a digit: end of text or a non-word character. -/
def boundaryAfter : List Char → Bool
  | [] => true
  | c :: _ => !isWordC c

/-- Pattern 7, `\b\d{3}[-\s]?\d{3}[-\s]?\d{3}\b`: no capture group, so
`findall` emits the whole match.  The leading `\b` before a digit requires
the previous character to be absent or non-word. -/
def matchGrouped9 : Matcher := fun prev s =>
  if (prev.map isWordC).getD false then none
  else
    match take3 s with
    | none => none
    | some (g1, r1) =>
      let p1 := sepSplit r1
      match take3 p1.2 with
      | none => none
      | some (g2, r2) =>
        let p2 := sepSplit r2
        match take3 p2.2 with
        | none => none
        | some (g3, r3) =>
          if boundaryAfter r3 then
            let whole := g1 ++ p1.1 ++ g2 ++ p2.1 ++ g3
            some (whole, whole.length)
          else none

/-- Pattern 8, `value="([6-9]\d{8})"`. -/
def matchValueAttr : Matcher := fun _ s =>
  match stripCaseless ['v', 'a', 'l', 'u', 'e', '=', '"'] s with
  | none => none
  | some rest =>
    match rest with
    | c :: r =>
      if (c = '6' || c = '7' || c = '8' || c = '9') && decide (8 ≤ r.length)
          && (r.take 8).all isDigitC then
        match r.drop 8 with
        | '"' :: _ => some (c :: r.take 8, 17)
        | _ => none
      else none
    | [] => none

/-- Pattern 9, `>\s*([6-9]\d{8})\s*<`. -/
def matchBetweenTags : Matcher := fun _ s =>
  match s with
  | '>' :: r =>
    let w1 := r.takeWhile isSpaceC
    match r.dropWhile isSpaceC with
    | c :: r2 =>
      if (c = '6' || c = '7' || c = '8' || c = '9') && decide (8 ≤ r2.length)
          && (r2.take 8).all isDigitC then
        let r3 := r2.drop 8
        let w2 := r3.takeWhile isSpaceC
        match r3.dropWhile isSpaceC with
        | '<' :: _ => some (c :: r2.take 8, 1 + w1.length + 9 + w2.length + 1)
        | _ => none
      else none
    | [] => none
  | _ => none

/-! ## `re.findall` scanning -/

/-- Leftmost, non-overlapping scan: try the matcher at each position, emit on
success and resume after the consumed characters.  The fuel argument (one
unit per text position, `findAll` supplies `text.length`) keeps the
definition structural; every matcher consumes at least one character, so the
fuel never runs out. -/
def findAllGo (m : Matcher) : Nat → Option Char → List Char → List (List Char)
  | 0, _, _ => []
  | _ + 1, _, [] => []
  | fuel + 1, prev, c :: s =>
    match m prev (c :: s) with
    | some (g, k) => g :: findAllGo m fuel (some ((c :: s).getD (k - 1) c)) (s.drop (k - 1))
    | none => findAllGo m fuel (some c) s

def findAll (m : Matcher) (text : List Char) : List (List Char) :=
  findAllGo m text.length none text

/-! ## The cascade -/

def patterns : List Matcher :=
  [matchCC ['6', '7', '8', '9'],
   matchCC ['8', '9'],
   matchTag ['t', 'e', 'l'],
   matchTag ['p', 'h', 'o', 'n', 'e'],
   matchTag ['t', 'e', 'l', 'e', 'f', 'o', 'n', 'o'],
   matchTag ['m', 'ó', 'v', 'i', 'l'],
   matchGrouped9,
   matchValueAttr,
   matchBetweenTags]

/-- The inner `for match in matches` loop: first validated match, if any. -/
def firstValid : List (List Char) → Option (List Char)
  | [] => none
  | m :: ms =>
    match validateMatch m with
    | some v => some v
    | none => firstValid ms

/-- The outer `for pattern in patterns` loop.  The source has no `break`: when
every match of a pattern fails validation the loop continues with the next
pattern, and `None` is returned only after the last one. -/
def tryPatterns : List Matcher → List Char → Option (List Char)
  | [], _ => none
  | p :: ps, text =>
    if findAll p text ≠ [] then
      match firstValid (findAll p text) with
      | some v => some v
      | none => tryPatterns ps text
    else tryPatterns ps text

def extract_phone_number (text : List Char) : Option (List Char) :=
  tryPatterns patterns text

/-! ## Spec-side definitions

`goodWindow` characterises `\d{9}` windows for the statement of C4's amended
claim; `cleanSpecC4` / `validateSpecC4` are modelled from the words of claim
C4 itself ("a leading '+'", "a run of exactly 9 consecutive digits") and are
used only to exhibit where that claim and the source disagree. -/

/-- Nine consecutive digits start at position `i` of `l`. -/
def goodWindow (l : List Char) (i : Nat) : Bool :=
  decide (i + 9 ≤ l.length) && ((l.drop i).take 9).all isDigitC

/-- Claim C4's cleaning: keep digits, and '+' only in leading position. -/
def cleanSpecC4 : List Char → List Char
  | '+' :: r => '+' :: r.filter isDigitC
  | m => m.filter isDigitC

/-- Maximal runs of consecutive digits, in order (`acc` holds the current
run reversed). -/
def digitRunsGo : List Char → List Char → List (List Char)
  | acc, [] => if acc = [] then [] else [acc.reverse]
  | acc, c :: s =>
    if isDigitC c then digitRunsGo (c :: acc) s
    else (if acc = [] then [] else [acc.reverse]) ++ digitRunsGo [] s

def digitRuns (l : List Char) : List (List Char) := digitRunsGo [] l

/-- Claim C4's search: the first maximal digit run of length exactly 9 (so a
run of 10 or more digits never qualifies). -/
def firstExactRun9 (l : List Char) : Option (List Char) :=
  (digitRuns l).find? (fun r => r.length = 9)

/-- Claim C4's per-match processing, as the claim words it. -/
def validateSpecC4 (m : List Char) : Option (List Char) :=
  let phone := cleanSpecC4 m
  if 9 ≤ phone.length then
    match firstExactRun9 phone with
    | some n => if n.head? = some '6' then some n else none
    | none => none
  else none

/-! ## The per-credential session (`conforama_session.py`)

The four network operations' raw outcomes are supplied by an oracle: each
request either raises a transport exception or returns a status code; the
login post additionally reports whether the final redirected URL contains
"sales/order/history", and the address fetch carries the decoded page body
(the source's `_get_decoded_content` never raises — it degrades to
replacement decoding — so the body is total). -/

inductive HttpResp where
  | exn : HttpResp
  | resp : Nat → HttpResp
deriving DecidableEq

structure SessionOracle where
  loginPage : HttpResp
  loginPost : HttpResp
  loginLandsOnHistory : Bool
  orderHistory : HttpResp
  address : HttpResp
  addressBody : List Char
deriving DecidableEq

/-- The three values the session's step methods return in Python:
`"banned"`, `True`, `False`. -/
inductive StepOutcome where
  | banned : StepOutcome
  | ok : StepOutcome
  | failed : StepOutcome
deriving DecidableEq

def get_login_page (o : SessionOracle) : StepOutcome :=
  match o.loginPage with
  | .exn => .failed
  | .resp s => if s = 401 then .banned else if s = 200 then .ok else .failed

def perform_login (o : SessionOracle) : StepOutcome :=
  match o.loginPost with
  | .exn => .failed
  | .resp s =>
    if s = 401 then .banned
    else if o.loginLandsOnHistory then .ok else .failed

def get_order_history (o : SessionOracle) : StepOutcome :=
  match o.orderHistory with
  | .exn => .failed
  | .resp s => if s = 401 then .banned else if s = 200 then .ok else .failed

/-- Python returns `"banned"`, the extracted string, or `None`; the string
`"banned"` doubles as the denial sentinel, exactly as in the source.  A
transport exception and a status other than 401/200 both return `None`. -/
def get_customer_address (o : SessionOracle) : Option (List Char) :=
  match o.address with
  | .exn => none
  | .resp s =>
    if s = 401 then some "banned".toList
    else if s = 200 then extract_phone_number o.addressBody
    else none

/-! ## The per-credential workflow (`phone_extractor.py`) -/

structure PhoneResult where
  username : String
  password : String
  phone : Option (List Char)
  success : Bool
  error : Option String
  banned : Bool
deriving DecidableEq

/-- The four session operations, recorded in invocation order. -/
inductive Op where
  | loadEntryPoint : Op
  | authenticate : Op
  | confirmSession : Op
  | fetchAndExtract : Op
deriving DecidableEq

/-- `process_single_account`, returning the `PhoneResult` together with the
trace of session operations invoked.  `stopSet` is the value
`stop_event.is_set()` reads on entry.  `elif phone:` is Python truthiness:
`some v` with `v ≠ []`. -/
def process_single_account (stopSet : Bool) (o : SessionOracle)
    (username password : String) : PhoneResult × List Op :=
  if stopSet then
    (⟨username, password, none, false, some "Process stopped", false⟩, [])
  else
    match get_login_page o with
    | .banned =>
      (⟨username, password, none, false, some "IP/Account banned (401)", true⟩,
       [.loadEntryPoint])
    | .failed =>
      (⟨username, password, none, false, some "Failed to load login page", false⟩,
       [.loadEntryPoint])
    | .ok =>
      match perform_login o with
      | .banned =>
        (⟨username, password, none, false, some "IP/Account banned (401)", true⟩,
         [.loadEntryPoint, .authenticate])
      | .failed =>
        (⟨username, password, none, false, some "Login failed", false⟩,
         [.loadEntryPoint, .authenticate])
      | .ok =>
        match get_order_history o with
        | .banned =>
          (⟨username, password, none, false, some "IP/Account banned (401)", true⟩,
           [.loadEntryPoint, .authenticate, .confirmSession])
        | .failed =>
          (⟨username, password, none, false, some "Failed to access order history", false⟩,
           [.loadEntryPoint, .authenticate, .confirmSession])
        | .ok =>
          if get_customer_address o = some "banned".toList then
            (⟨username, password, none, false, some "IP/Account banned (401)", true⟩,
             [.loadEntryPoint, .authenticate, .confirmSession, .fetchAndExtract])
          else
            match get_customer_address o with
            | some v =>
              if v ≠ [] then
                (⟨username, password, some v, true, none, false⟩,
                 [.loadEntryPoint, .authenticate, .confirmSession, .fetchAndExtract])
              else
                (⟨username, password, none, false, some "No phone number found", false⟩,
                 [.loadEntryPoint, .authenticate, .confirmSession, .fetchAndExtract])
            | none =>
              (⟨username, password, none, false, some "No phone number found", false⟩,
               [.loadEntryPoint, .authenticate, .confirmSession, .fetchAndExtract])

/-! ## The threaded dispatcher (`process_accounts_threaded`)

Credential attempts are identified by their index in the credential list; the
`PhoneResult` an attempt's future delivers is supplied by `results` (the
worker pool is abstracted: attempts run independently and their outcomes are
data).  `future.done()` polling is supplied by `sched iter i` — whether the
future of attempt `i` reads as done in loop iteration `iter`.  The
cooperative stop flag is read exactly where the source reads it; each read
ticks a clock, and `stop clock` is the value read.  Every callback invocation
and every submission to the executor is recorded as an event. -/

inductive Ev where
  | cb : PhoneResult → Nat → Nat → Ev
  | sub : Nat → Nat → Ev
deriving DecidableEq

structure DState where
  futures : List Nat
  remaining : List Nat
  completed : Nat
  clock : Nat
  iter : Nat
deriving DecidableEq

/-- The announcement results the source passes to the callback:
`PhoneResult("", "", "", False, msg)` (so `phone` is the empty string). -/
def announceResult (msg : String) : PhoneResult :=
  ⟨"", "", some [], false, some msg, false⟩

/-- Callback invocations of an event list, in order:
`(result, completedCount, totalCount)`. -/
def cbEvents (evs : List Ev) : List (PhoneResult × Nat × Nat) :=
  evs.filterMap fun e =>
    match e with
    | .cb r c t => some (r, c, t)
    | .sub _ _ => none

/-- Submissions of an event list, in order: `(attempt index, clock at the
stop-flag read that admitted it)`. -/
def subEvents (evs : List Ev) : List (Nat × Nat) :=
  evs.filterMap fun e =>
    match e with
    | .cb _ _ _ => none
    | .sub i c => some (i, c)

/-- The `for future in completed_futures` body: pop, increment the counter,
invoke the callback with the future's result. -/
def mkResEvents (results : Nat → PhoneResult) (total : Nat) :
    Nat → List Nat → List Ev
  | _, [] => []
  | c, i :: is => .cb (results i) (c + 1) total :: mkResEvents results total (c + 1) is

/-- The callback tuples `mkResEvents` produces, used to state what a run's
callback trace contains. -/
def resTuples (results : Nat → PhoneResult) (total : Nat) :
    Nat → List Nat → List (PhoneResult × Nat × Nat)
  | _, [] => []
  | c, i :: is => (results i, c + 1, total) :: resTuples results total (c + 1) is

/-- The initial-batch submission loop:
`for i in range(initial_batch): if stop: break; submit`. -/
def submitInitial (stop : Nat → Bool) : List Nat → DState → List Ev × DState
  | [], st => ([], st)
  | i :: is, st =>
    if stop st.clock then ([], { st with clock := st.clock + 1 })
    else
      let r := submitInitial stop is
        { st with clock := st.clock + 1, futures := st.futures ++ [i] }
      (.sub i st.clock :: r.1, r.2)

/-- The top-up loop:
`while len(future_to_account) < W*5 and remaining: if stop: break; submit`.
Fuel is structural; `dloop` passes the length of `remaining`, which bounds the
number of iterations. -/
def topUp (W : Nat) (stop : Nat → Bool) : Nat → DState → List Ev × DState
  | 0, st => ([], st)
  | fuel + 1, st =>
    if st.futures.length < W * 5 ∧ st.remaining ≠ [] then
      if stop st.clock then ([], { st with clock := st.clock + 1 })
      else
        match st.remaining with
        | [] => ([], st)
        | i :: is =>
          let r := topUp W stop fuel
            { st with clock := st.clock + 1, futures := st.futures ++ [i], remaining := is }
          (.sub i st.clock :: r.1, r.2)
    else ([], st)

/-- The body of one outer-loop iteration after its stop check: top up, poll
for done futures (in insertion order), process each — pop it, increment the
counter, invoke the callback with its result.  A future's `result()` cannot
raise here — `process_single_account` catches every exception — so the
`except` arm around it is dead code. -/
def dbody (total W : Nat) (results : Nat → PhoneResult) (stop : Nat → Bool)
    (sched : Nat → Nat → Bool) (st : DState) : List Ev × DState :=
  let st1 : DState := { st with clock := st.clock + 1 }
  let r1 := topUp W stop st1.remaining.length st1
  let st2 := r1.2
  let done := st2.futures.filter (fun i => sched st2.iter i)
  let notdone := st2.futures.filter (fun i => !sched st2.iter i)
  let ev2 := mkResEvents results total st2.completed done
  let st3 : DState :=
    ⟨notdone, st2.remaining, st2.completed + done.length, st2.clock, st2.iter + 1⟩
  (r1.1 ++ ev2, st3)

/-- The outer `while future_to_account or remaining_credentials` loop: check
the loop condition, check the stop flag, run the body, repeat. -/
def dloop (total W : Nat) (results : Nat → PhoneResult) (stop : Nat → Bool)
    (sched : Nat → Nat → Bool) : Nat → DState → List Ev × DState
  | 0, st => ([], st)
  | fuel + 1, st =>
    if st.futures = [] ∧ st.remaining = [] then ([], st)
    else if stop st.clock then ([], { st with clock := st.clock + 1 })
    else
      let b := dbody total W results stop sched st
      let r3 := dloop total W results stop sched fuel b.2
      (b.1 ++ r3.1, r3.2)

/-- `process_accounts_threaded` for a credential list of length `n` (the
credentials themselves only reach the workers, which `results` abstracts):
three announcements, the initial burst of `min(W*3, n)`, then the adaptive
loop, run for `fuel` iterations. -/
def process_accounts_threaded (n W : Nat) (results : Nat → PhoneResult)
    (stop : Nat → Bool) (sched : Nat → Nat → Bool) (fuel : Nat) :
    List Ev × DState :=
  let initialBatch := min (W * 3) n
  let r1 := submitInitial stop (List.range initialBatch)
    ⟨[], List.range' initialBatch (n - initialBatch), 0, 0, 0⟩
  let r2 := dloop n W results stop sched fuel r1.2
  (.cb (announceResult "Starting extraction...") 0 n ::
   .cb (announceResult ("Submitting first " ++ toString initialBatch ++ " tasks...")) 0 n ::
   r1.1 ++
   .cb (announceResult "Tasks submitted - awaiting first responses...") 0 n ::
   r2.1,
   r2.2)


/-! ## Lemmas on the `\d{9}` search -/

theorem goodWindow_zero (l : List Char) : goodWindow l 0 = digitRun9 l := by
  simp [goodWindow, digitRun9]

theorem goodWindow_cons_succ (c : Char) (s : List Char) (i : Nat) :
    goodWindow (c :: s) (i + 1) = goodWindow s i := by
  unfold goodWindow
  rw [List.drop_succ_cons, List.length_cons]
  congr 1
  rw [decide_eq_decide]
  omega

/-- `re.search(r'\d{9}', l)` succeeds with `n` exactly when `n` is the window
of nine digits at the leftmost position carrying one. -/
theorem search9_eq_some_iff (l n : List Char) :
    search9 l = some n ↔
      ∃ i, goodWindow l i = true ∧ (∀ j, j < i → goodWindow l j = false) ∧
        n = (l.drop i).take 9 := by
  induction l with
  | nil =>
    constructor
    · intro h; simp [search9] at h
    · rintro ⟨i, hi, -, -⟩
      simp [goodWindow] at hi
  | cons c s ih =>
    by_cases h0 : digitRun9 (c :: s) = true
    · rw [search9, if_pos h0]
      constructor
      · intro h
        injection h with h
        exact ⟨0, by rwa [goodWindow_zero], fun j hj => absurd hj (Nat.not_lt_zero j),
          by simpa using h.symm⟩
      · rintro ⟨i, hi, hmin, hn⟩
        cases i with
        | zero => simp [hn]
        | succ i' =>
          have hz := hmin 0 (Nat.succ_pos _)
          rw [goodWindow_zero, h0] at hz
          cases hz
    · rw [search9, if_neg h0, ih]
      have h0' : digitRun9 (c :: s) = false := by
        cases hb : digitRun9 (c :: s)
        · rfl
        · exact absurd hb h0
      constructor
      · rintro ⟨i, hi, hmin, hn⟩
        refine ⟨i + 1, ?_, ?_, ?_⟩
        · rwa [goodWindow_cons_succ]
        · intro j hj
          cases j with
          | zero => rw [goodWindow_zero]; exact h0'
          | succ j' =>
            rw [goodWindow_cons_succ]
            exact hmin j' (Nat.succ_lt_succ_iff.mp hj)
        · rwa [List.drop_succ_cons]
      · rintro ⟨i, hi, hmin, hn⟩
        cases i with
        | zero =>
          rw [goodWindow_zero, h0'] at hi
          cases hi
        | succ i' =>
          refine ⟨i', ?_, ?_, ?_⟩
          · rwa [goodWindow_cons_succ] at hi
          · intro j hj
            have := hmin (j + 1) (Nat.succ_lt_succ hj)
            rwa [goodWindow_cons_succ] at this
          · rwa [List.drop_succ_cons] at hn

theorem search9_props {l n : List Char} (h : search9 l = some n) :
    n.length = 9 ∧ n.all isDigitC = true := by
  obtain ⟨i, hi, -, hn⟩ := (search9_eq_some_iff l n).mp h
  rw [goodWindow, Bool.and_eq_true, decide_eq_true_eq] at hi
  subst hn
  refine ⟨?_, hi.2⟩
  rw [List.length_take, List.length_drop]
  omega

/-! ## Lemmas on match validation and the cascade loops -/

theorem validateMatch_some {m v : List Char} (h : validateMatch m = some v) :
    v.length = 9 ∧ v.all isDigitC = true ∧ v.head? = some '6' := by
  unfold validateMatch at h
  by_cases hc : cleanPhone m ≠ [] ∧ 9 ≤ (cleanPhone m).length
  · rw [if_pos hc] at h
    cases hs : search9 (cleanPhone m) with
    | none => rw [hs] at h; cases h
    | some number =>
      rw [hs] at h
      dsimp only at h
      by_cases h6 : number.head? = some '6'
      · rw [if_pos h6] at h
        injection h with h
        subst h
        obtain ⟨h1, h2⟩ := search9_props hs
        exact ⟨h1, h2, h6⟩
      · rw [if_neg h6] at h; cases h
  · rw [if_neg hc] at h; cases h

theorem firstValid_eq_none_iff (ms : List (List Char)) :
    firstValid ms = none ↔ ∀ m ∈ ms, validateMatch m = none := by
  induction ms with
  | nil => simp [firstValid]
  | cons m ms ih =>
    cases h : validateMatch m with
    | some v => simp [firstValid, h]
    | none => simp [firstValid, h, ih]

theorem firstValid_some {ms : List (List Char)} {v : List Char}
    (h : firstValid ms = some v) : ∃ m ∈ ms, validateMatch m = some v := by
  induction ms with
  | nil => cases h
  | cons m ms ih =>
    cases hm : validateMatch m with
    | some w =>
      rw [firstValid, hm] at h
      injection h with h
      exact ⟨m, List.mem_cons_self m ms, by rw [hm, h]⟩
    | none =>
      rw [firstValid, hm] at h
      obtain ⟨m', hmem, hv⟩ := ih h
      exact ⟨m', List.mem_cons_of_mem m hmem, hv⟩

/-- One step of the pattern loop: whether or not the pattern matched at all,
failing to validate every match continues with the remaining patterns. -/
theorem tryPatterns_cons (p : Matcher) (ps : List Matcher) (text : List Char) :
    tryPatterns (p :: ps) text =
      match firstValid (findAll p text) with
      | some v => some v
      | none => tryPatterns ps text := by
  by_cases h : findAll p text = []
  · rw [tryPatterns, if_neg (by simp [h]), h]
    rfl
  · rw [tryPatterns, if_pos h]

theorem tryPatterns_eq_none_iff (ps : List Matcher) (text : List Char) :
    tryPatterns ps text = none ↔
      ∀ p ∈ ps, ∀ m ∈ findAll p text, validateMatch m = none := by
  induction ps with
  | nil => simp [tryPatterns]
  | cons p ps ih =>
    rw [tryPatterns_cons]
    cases h : firstValid (findAll p text) with
    | some v =>
      show some v = none ↔ _
      constructor
      · intro hh; cases hh
      · intro hall
        obtain ⟨m, hmem, hv⟩ := firstValid_some h
        rw [hall p (List.mem_cons_self p ps) m hmem] at hv
        cases hv
    | none =>
      show tryPatterns ps text = none ↔ _
      rw [ih]
      constructor
      · intro hall q hq m hm
        rcases List.mem_cons.mp hq with rfl | hq'
        · exact (firstValid_eq_none_iff _).mp h m hm
        · exact hall q hq' m hm
      · intro hall q hq m hm
        exact hall q (List.mem_cons_of_mem p hq) m hm

theorem tryPatterns_some {ps : List Matcher} {text v : List Char}
    (h : tryPatterns ps text = some v) :
    ∃ p ∈ ps, ∃ m ∈ findAll p text, validateMatch m = some v := by
  induction ps with
  | nil => cases h
  | cons p ps ih =>
    rw [tryPatterns_cons] at h
    cases hf : firstValid (findAll p text) with
    | some w =>
      rw [hf] at h
      injection h with h
      subst h
      obtain ⟨m, hm, hv⟩ := firstValid_some hf
      exact ⟨p, List.mem_cons_self p ps, m, hm, hv⟩
    | none =>
      rw [hf] at h
      obtain ⟨q, hq, hrest⟩ := ih h
      exact ⟨q, List.mem_cons_of_mem p hq, hrest⟩

/-- Any value the cascade returns is nine digits starting with '6'. -/
theorem extract_phone_number_valid {text v : List Char}
    (h : extract_phone_number text = some v) :
    v.length = 9 ∧ v.all isDigitC = true ∧ v.head? = some '6' := by
  obtain ⟨p, -, m, -, hv⟩ := tryPatterns_some h
  exact validateMatch_some hv

/-! ## Patterns 1 and 2 emit only their capture group -/

theorem matchCC_shape {first : List Char} {prev : Option Char} {s g : List Char} {k : Nat}
    (h : matchCC first prev s = some (g, k)) :
    g = [] ∨ g = ['+', '3', '4'] ∨ ∃ w, isSpaceC w = true ∧ g = ['+', '3', '4', w] := by
  unfold matchCC at h
  split at h
  · split at h
    · split_ifs at h with h1 h2
      · injection h with h
        cases h
        simp only [Bool.and_eq_true] at h1
        exact Or.inr (Or.inr ⟨_, h1.1, rfl⟩)
      · injection h with h
        cases h
        exact Or.inr (Or.inl rfl)
    · split_ifs at h with h1
      injection h with h
      cases h
      exact Or.inr (Or.inl rfl)
  · split_ifs at h with h1
    injection h with h
    cases h
    exact Or.inl rfl

theorem isSpaceC_keepC {w : Char} (h : isSpaceC w = true) : keepC w = false := by
  unfold isSpaceC at h
  simp only [Bool.or_eq_true, decide_eq_true_eq] at h
  rcases h with ((((rfl | rfl) | rfl) | rfl) | rfl) | rfl <;> decide

/-- Every string `findall` emits for patterns 1 and 2 cleans to at most
"+34", so the 9-character gate rejects it. -/
theorem matchCC_inert {first : List Char} {prev : Option Char} {s g : List Char} {k : Nat}
    (h : matchCC first prev s = some (g, k)) :
    (cleanPhone g = [] ∨ cleanPhone g = ['+', '3', '4']) ∧ validateMatch g = none := by
  rcases matchCC_shape h with rfl | rfl | ⟨w, hw, rfl⟩
  · exact ⟨Or.inl (by decide), by decide⟩
  · exact ⟨Or.inr (by decide), by decide⟩
  · have hclean : cleanPhone ['+', '3', '4', w] = ['+', '3', '4'] := by
      show List.filter keepC ('+' :: '3' :: '4' :: w :: []) = _
      rw [List.filter_cons, List.filter_cons, List.filter_cons, List.filter_cons,
        isSpaceC_keepC hw, show keepC '+' = true from by decide,
        show keepC '3' = true from by decide, show keepC '4' = true from by decide]
      simp
    have hnone : validateMatch ['+', '3', '4', w] = none := by
      unfold validateMatch
      rw [hclean]
      simp
    exact ⟨Or.inr hclean, hnone⟩

theorem findAllGo_emits {m : Matcher} {P : List Char → Prop}
    (hm : ∀ prev s g k, m prev s = some (g, k) → P g) :
    ∀ (fuel : Nat) (prev : Option Char) (s : List Char), ∀ g ∈ findAllGo m fuel prev s, P g := by
  intro fuel
  induction fuel with
  | zero => intro prev s g hg; simp [findAllGo] at hg
  | succ fuel ih =>
    intro prev s g hg
    cases s with
    | nil => simp [findAllGo] at hg
    | cons c s' =>
      rw [findAllGo] at hg
      cases hmt : m prev (c :: s') with
      | some gk =>
        rw [hmt] at hg
        obtain ⟨g', k⟩ := gk
        dsimp only at hg
        rcases List.mem_cons.mp hg with rfl | hg'
        · exact hm _ _ _ _ hmt
        · exact ih _ _ _ hg'
      | none =>
        rw [hmt] at hg
        exact ih _ _ _ hg

/-! ## Claim theorems on the extraction cascade -/

/-- C10: the first two cascade patterns collect only the optional
country-code group, so none of their matches survives cleaning and
validation, and extraction coincides with the cascade restricted to the
remaining seven patterns. -/
theorem c10_first_two_patterns_inert (text : List Char) :
    (∀ m ∈ findAll (matchCC ['6', '7', '8', '9']) text,
       (cleanPhone m = [] ∨ cleanPhone m = ['+', '3', '4']) ∧ validateMatch m = none) ∧
    (∀ m ∈ findAll (matchCC ['8', '9']) text,
       (cleanPhone m = [] ∨ cleanPhone m = ['+', '3', '4']) ∧ validateMatch m = none) ∧
    extract_phone_number text =
      tryPatterns
        [matchTag ['t', 'e', 'l'], matchTag ['p', 'h', 'o', 'n', 'e'],
         matchTag ['t', 'e', 'l', 'e', 'f', 'o', 'n', 'o'], matchTag ['m', 'ó', 'v', 'i', 'l'],
         matchGrouped9, matchValueAttr, matchBetweenTags] text := by
  have h1 : ∀ m ∈ findAll (matchCC ['6', '7', '8', '9']) text,
      (cleanPhone m = [] ∨ cleanPhone m = ['+', '3', '4']) ∧ validateMatch m = none :=
    findAllGo_emits (fun _ _ _ _ h => matchCC_inert h) text.length none text
  have h2 : ∀ m ∈ findAll (matchCC ['8', '9']) text,
      (cleanPhone m = [] ∨ cleanPhone m = ['+', '3', '4']) ∧ validateMatch m = none :=
    findAllGo_emits (fun _ _ _ _ h => matchCC_inert h) text.length none text
  refine ⟨h1, h2, ?_⟩
  unfold extract_phone_number patterns
  rw [tryPatterns_cons, (firstValid_eq_none_iff _).mpr (fun m hm => (h1 m hm).2)]
  dsimp only
  rw [tryPatterns_cons, (firstValid_eq_none_iff _).mpr (fun m hm => (h2 m hm).2)]

/-- C1 (amended): the source's pattern loop has no break, so a pattern whose
matches all fail validation does not stop the cascade; "not found" is
returned exactly when every match of every pattern fails validation. -/
theorem c1_cascade_falls_through (text : List Char) :
    extract_phone_number text = none ↔
      ∀ p ∈ patterns, ∀ m ∈ findAll p text, validateMatch m = none :=
  tryPatterns_eq_none_iff patterns text

/-- C1 counterexample: on ">612345678<" the first pattern has a (structural)
match, none of its matches validates, yet extraction does not return
"not found" — it falls through and pattern 7 returns "612345678". -/
theorem c1_counterexample :
    findAll (matchCC ['6', '7', '8', '9']) ">612345678<".toList ≠ [] ∧
    (∀ m ∈ findAll (matchCC ['6', '7', '8', '9']) ">612345678<".toList,
       validateMatch m = none) ∧
    extract_phone_number ">612345678<".toList = some "612345678".toList := by decide

/-- C8: the spec's scenario `>612345678<` extracts "612345678". -/
theorem c8_scenario :
    extract_phone_number ">612345678<".toList = some "612345678".toList := by decide

/-- C4 (amended): a match is validated to `v` iff the cleaned match (digits
and '+' kept, '+' in any position) has at least 9 characters, `v` is the
window of nine consecutive digits at the leftmost position carrying one
(the first nine digits of a longer run qualify), and `v` starts with '6'. -/
theorem c4_match_processing (m v : List Char) :
    validateMatch m = some v ↔
      9 ≤ (cleanPhone m).length ∧ v.head? = some '6' ∧
      ∃ i, goodWindow (cleanPhone m) i = true ∧
        (∀ j, j < i → goodWindow (cleanPhone m) j = false) ∧
        v = ((cleanPhone m).drop i).take 9 := by
  unfold validateMatch
  by_cases hc : cleanPhone m ≠ [] ∧ 9 ≤ (cleanPhone m).length
  · rw [if_pos hc]
    cases hs : search9 (cleanPhone m) with
    | some number =>
      dsimp only
      constructor
      · intro h
        by_cases h6 : number.head? = some '6'
        · rw [if_pos h6] at h
          injection h with h
          subst h
          exact ⟨hc.2, h6, (search9_eq_some_iff _ _).mp hs⟩
        · rw [if_neg h6] at h; cases h
      · rintro ⟨h9, h6, hex⟩
        have hv : search9 (cleanPhone m) = some v := (search9_eq_some_iff _ _).mpr hex
        rw [hs] at hv
        injection hv with hv
        subst hv
        rw [if_pos h6]
    | none =>
      constructor
      · intro h; cases h
      · rintro ⟨h9, h6, hex⟩
        have hv : search9 (cleanPhone m) = some v := (search9_eq_some_iff _ _).mpr hex
        rw [hs] at hv
        cases hv
  · rw [if_neg hc]
    constructor
    · intro h; cases h
    · rintro ⟨h9, h6, -⟩
      exact absurd ⟨List.length_pos.mp (by omega), h9⟩ hc

/-- C4 counterexample: the pattern-3 match "6-1-2-3-4-5-6-7-8-9" cleans to a
run of ten digits; the claim says such a run contains no run of exactly nine
digits and cannot qualify, but the source's `re.search(r'\d{9}')` takes its
first nine digits and extraction returns "612345678". -/
theorem c4_counterexample :
    findAll (matchTag ['t', 'e', 'l']) "tel>6-1-2-3-4-5-6-7-8-9<".toList =
      ["6-1-2-3-4-5-6-7-8-9".toList] ∧
    digitRuns (cleanPhone "6-1-2-3-4-5-6-7-8-9".toList) = ["6123456789".toList] ∧
    validateSpecC4 "6-1-2-3-4-5-6-7-8-9".toList = none ∧
    validateMatch "6-1-2-3-4-5-6-7-8-9".toList = some "612345678".toList ∧
    extract_phone_number "tel>6-1-2-3-4-5-6-7-8-9<".toList = some "612345678".toList := by
  decide

/-! ## Claim theorems on the per-credential workflow -/

/-- C3: any value the cascade returns — and hence the `phone` of any
successful `PhoneResult` — is a string of exactly nine digits whose first
digit is '6'. -/
theorem c3_returned_value_shape :
    (∀ text v : List Char, extract_phone_number text = some v →
       v.length = 9 ∧ v.all isDigitC = true ∧ v.head? = some '6') ∧
    (∀ (stopSet : Bool) (o : SessionOracle) (u p : String) (v : List Char),
       (process_single_account stopSet o u p).1.phone = some v →
       v.length = 9 ∧ v.all isDigitC = true ∧ v.head? = some '6') := by
  constructor
  · exact fun _ _ h => extract_phone_number_valid h
  · intro stopSet o u p v hv
    have hex : extract_phone_number o.addressBody = some v := by
      cases stopSet with
      | true =>
        unfold process_single_account at hv
        rw [if_pos rfl] at hv
        simp at hv
      | false =>
        unfold process_single_account at hv
        rw [if_neg (by simp)] at hv
        cases hl : get_login_page o with
        | banned => rw [hl] at hv; simp at hv
        | failed => rw [hl] at hv; simp at hv
        | ok =>
          rw [hl] at hv
          dsimp only at hv
          cases hp : perform_login o with
          | banned => rw [hp] at hv; simp at hv
          | failed => rw [hp] at hv; simp at hv
          | ok =>
            rw [hp] at hv
            dsimp only at hv
            cases hh : get_order_history o with
            | banned => rw [hh] at hv; simp at hv
            | failed => rw [hh] at hv; simp at hv
            | ok =>
              rw [hh] at hv
              dsimp only at hv
              by_cases hb : get_customer_address o = some "banned".toList
              · rw [if_pos hb] at hv; simp at hv
              · rw [if_neg hb] at hv
                cases ha : get_customer_address o with
                | none => rw [ha] at hv; simp at hv
                | some w =>
                  have ha' := ha
                  rw [ha] at hv
                  dsimp only at hv
                  by_cases hw : w ≠ []
                  · rw [if_pos hw] at hv
                    simp at hv
                    subst hv
                    unfold get_customer_address at ha
                    cases haddr : o.address with
                    | exn => rw [haddr] at ha; cases ha
                    | resp s =>
                      rw [haddr] at ha
                      dsimp only at ha
                      by_cases h401 : s = 401
                      · rw [if_pos h401] at ha
                        injection ha with ha
                        rw [← ha] at ha'
                        exact absurd ha' hb
                      · rw [if_neg h401] at ha
                        by_cases h200 : s = 200
                        · rw [if_pos h200] at ha; exact ha
                        · rw [if_neg h200] at ha; cases ha
                  · rw [if_neg hw] at hv; simp at hv
    exact extract_phone_number_valid hex

/-- C6: in every result of a workflow attempt, `banned` implies not
`success` and no value, and `success` implies a value and not `banned`. -/
theorem c6_result_invariant (stopSet : Bool) (o : SessionOracle) (u p : String) :
    ((process_single_account stopSet o u p).1.banned &&
       (process_single_account stopSet o u p).1.success) = false ∧
    ((process_single_account stopSet o u p).1.banned &&
       (process_single_account stopSet o u p).1.phone.isSome) = false ∧
    ((process_single_account stopSet o u p).1.success &&
       !(process_single_account stopSet o u p).1.phone.isSome) = false ∧
    ((process_single_account stopSet o u p).1.success &&
       (process_single_account stopSet o u p).1.banned) = false := by
  unfold process_single_account
  repeat' split
  all_goals simp

/-- C7: HTTP 401 at the first step terminates the attempt at once with the
banned result; no later session operation is invoked. -/
theorem c7_banned_short_circuit (o : SessionOracle) (u p : String)
    (h : o.loginPage = HttpResp.resp 401) :
    process_single_account false o u p =
      (⟨u, p, none, false, some "IP/Account banned (401)", true⟩, [Op.loadEntryPoint]) := by
  have hb : get_login_page o = .banned := by
    simp [get_login_page, h]
  simp [process_single_account, hb]

theorem c7_banned_short_circuit_witness :
    process_single_account false
        ⟨HttpResp.resp 401, HttpResp.resp 200, true, HttpResp.resp 200, HttpResp.resp 200, []⟩
        "u" "p" =
      (⟨"u", "p", none, false, some "IP/Account banned (401)", true⟩, [Op.loadEntryPoint]) :=
  c7_banned_short_circuit _ "u" "p" rfl

/-- C5 (amended): a non-denied failure of the fourth step — a transport
exception or a status other than 401/200 — yields the very same failed
result, error "No phone number found", as the all-steps-succeeded-but-
nothing-extracted outcome; the source does not distinguish the two. -/
theorem c5_step4_failure (o : SessionOracle) (u p : String)
    (h1 : get_login_page o = .ok) (h2 : perform_login o = .ok)
    (h3 : get_order_history o = .ok)
    (h4 : o.address = HttpResp.exn ∨
      ∃ s, o.address = HttpResp.resp s ∧ s ≠ 401 ∧ s ≠ 200) :
    process_single_account false o u p =
      (⟨u, p, none, false, some "No phone number found", false⟩,
       [Op.loadEntryPoint, Op.authenticate, Op.confirmSession, Op.fetchAndExtract]) := by
  have haddr : get_customer_address o = none := by
    unfold get_customer_address
    rcases h4 with he | ⟨s, hs, h401, h200⟩
    · rw [he]
    · rw [hs]
      dsimp only
      rw [if_neg h401, if_neg h200]
  simp [process_single_account, h1, h2, h3, haddr]

theorem c5_step4_failure_witness :
    process_single_account false
        ⟨HttpResp.resp 200, HttpResp.resp 200, true, HttpResp.resp 200, HttpResp.exn, []⟩
        "u" "p" =
      (⟨"u", "p", none, false, some "No phone number found", false⟩,
       [Op.loadEntryPoint, Op.authenticate, Op.confirmSession, Op.fetchAndExtract]) :=
  c5_step4_failure _ "u" "p" rfl rfl rfl (Or.inl rfl)

/-- C5 counterexample: a transport exception at the fourth step produces a
result equal to the one where all four steps succeed and the cascade yields
nothing — both carry error "No phone number found", so the step's own error
is not propagated and the two outcomes are indistinguishable. -/
theorem c5_counterexample :
    process_single_account false
        ⟨HttpResp.resp 200, HttpResp.resp 200, true, HttpResp.resp 200, HttpResp.exn, []⟩
        "u" "p" =
      process_single_account false
        ⟨HttpResp.resp 200, HttpResp.resp 200, true, HttpResp.resp 200, HttpResp.resp 200, []⟩
        "u" "p" ∧
    (process_single_account false
        ⟨HttpResp.resp 200, HttpResp.resp 200, true, HttpResp.resp 200, HttpResp.resp 200, []⟩
        "u" "p").1.error = some "No phone number found" ∧
    (process_single_account false
        ⟨HttpResp.resp 200, HttpResp.resp 200, true, HttpResp.resp 200, HttpResp.resp 200, []⟩
        "u" "p").2 =
      [Op.loadEntryPoint, Op.authenticate, Op.confirmSession, Op.fetchAndExtract] := by
  decide

/-! ## Lemmas on the dispatcher's event traces -/

theorem cbEvents_nil : cbEvents [] = [] := rfl

theorem cbEvents_cons_cb (r : PhoneResult) (c t : Nat) (evs : List Ev) :
    cbEvents (Ev.cb r c t :: evs) = (r, c, t) :: cbEvents evs := rfl

theorem cbEvents_cons_sub (i c : Nat) (evs : List Ev) :
    cbEvents (Ev.sub i c :: evs) = cbEvents evs := rfl

theorem cbEvents_append (a b : List Ev) : cbEvents (a ++ b) = cbEvents a ++ cbEvents b :=
  List.filterMap_append a b _

theorem subEvents_nil : subEvents [] = [] := rfl

theorem subEvents_cons_cb (r : PhoneResult) (c t : Nat) (evs : List Ev) :
    subEvents (Ev.cb r c t :: evs) = subEvents evs := rfl

theorem subEvents_cons_sub (i c : Nat) (evs : List Ev) :
    subEvents (Ev.sub i c :: evs) = (i, c) :: subEvents evs := rfl

theorem subEvents_append (a b : List Ev) : subEvents (a ++ b) = subEvents a ++ subEvents b :=
  List.filterMap_append a b _

theorem cbEvents_mkResEvents (results : Nat → PhoneResult) (total : Nat) :
    ∀ (l : List Nat) (c : Nat),
      cbEvents (mkResEvents results total c l) = resTuples results total c l := by
  intro l
  induction l with
  | nil => intro c; rfl
  | cons i is ih =>
    intro c
    rw [mkResEvents, resTuples, cbEvents_cons_cb, ih]

theorem subEvents_mkResEvents (results : Nat → PhoneResult) (total : Nat) :
    ∀ (l : List Nat) (c : Nat), subEvents (mkResEvents results total c l) = [] := by
  intro l
  induction l with
  | nil => intro c; rfl
  | cons i is ih =>
    intro c
    rw [mkResEvents, subEvents_cons_cb, ih]

theorem resTuples_append (results : Nat → PhoneResult) (total : Nat) :
    ∀ (l1 l2 : List Nat) (c : Nat),
      resTuples results total c (l1 ++ l2) =
        resTuples results total c l1 ++ resTuples results total (c + l1.length) l2 := by
  intro l1
  induction l1 with
  | nil => intro l2 c; simp [resTuples]
  | cons i is ih =>
    intro l2 c
    have hc : c + 1 + is.length = c + (is.length + 1) := by omega
    rw [List.cons_append, resTuples, resTuples, ih, List.cons_append, List.length_cons, hc]

theorem resTuples_map_counts (results : Nat → PhoneResult) (total : Nat) :
    ∀ (l : List Nat) (c : Nat),
      (resTuples results total c l).map (fun e => e.2.1) = List.range' (c + 1) l.length := by
  intro l
  induction l with
  | nil => intro c; rfl
  | cons i is ih =>
    intro c
    rw [resTuples, List.map_cons, ih, List.length_cons, List.range'_succ]

/-- With the stop flag never set, the initial batch is submitted in full;
no callback is invoked. -/
theorem submitInitial_noStop :
    ∀ (l : List Nat) (st : DState),
      (submitInitial (fun _ => false) l st).2.futures = st.futures ++ l ∧
      (submitInitial (fun _ => false) l st).2.remaining = st.remaining ∧
      (submitInitial (fun _ => false) l st).2.completed = st.completed ∧
      (submitInitial (fun _ => false) l st).2.iter = st.iter ∧
      cbEvents (submitInitial (fun _ => false) l st).1 = [] := by
  intro l
  induction l with
  | nil => intro st; simp [submitInitial, cbEvents_nil]
  | cons j js ih =>
    intro st
    have h := ih { st with clock := st.clock + 1, futures := st.futures ++ [j] }
    rw [submitInitial, if_neg (by simp)]
    dsimp only
    refine ⟨?_, ?_, ?_, ?_, ?_⟩
    · rw [h.1]; simp
    · exact h.2.1
    · exact h.2.2.1
    · exact h.2.2.2.1
    · rw [cbEvents_cons_sub, h.2.2.2.2]

/-- With the stop flag never set, the top-up loop moves a front segment of
the remaining queue to the end of the in-flight list; no callback is
invoked, counters are untouched. -/
theorem topUp_noStop (W : Nat) :
    ∀ (fuel : Nat) (st : DState), ∃ moved : List Nat,
      (topUp W (fun _ => false) fuel st).2.futures = st.futures ++ moved ∧
      st.remaining = moved ++ (topUp W (fun _ => false) fuel st).2.remaining ∧
      (topUp W (fun _ => false) fuel st).2.completed = st.completed ∧
      (topUp W (fun _ => false) fuel st).2.iter = st.iter ∧
      cbEvents (topUp W (fun _ => false) fuel st).1 = [] := by
  intro fuel
  induction fuel with
  | zero =>
    intro st
    exact ⟨[], by simp [topUp], by simp [topUp], by simp [topUp], by simp [topUp],
      by simp [topUp, cbEvents_nil]⟩
  | succ fuel ih =>
    intro st
    by_cases hcond : st.futures.length < W * 5 ∧ st.remaining ≠ []
    · cases hr : st.remaining with
      | nil => exact absurd hr hcond.2
      | cons i is =>
        have he : topUp W (fun _ => false) (fuel + 1) st =
            (Ev.sub i st.clock ::
              (topUp W (fun _ => false) fuel
                { st with clock := st.clock + 1, futures := st.futures ++ [i],
                          remaining := is }).1,
             (topUp W (fun _ => false) fuel
                { st with clock := st.clock + 1, futures := st.futures ++ [i],
                          remaining := is }).2) := by
          rw [topUp, if_pos hcond, if_neg (by simp), hr]
        obtain ⟨mv, h1, h2, h3, h4, h5⟩ :=
          ih { st with clock := st.clock + 1, futures := st.futures ++ [i], remaining := is }
        refine ⟨i :: mv, ?_, ?_, ?_, ?_, ?_⟩
        · rw [he]; dsimp only; rw [h1]; simp
        · rw [he]; dsimp only
          exact congrArg (i :: ·) h2
        · rw [he]; dsimp only; exact h3
        · rw [he]; dsimp only; exact h4
        · rw [he]; dsimp only; rw [cbEvents_cons_sub, h5]
    · have he : topUp W (fun _ => false) (fuel + 1) st = ([], st) := by
        rw [topUp, if_neg hcond]
      exact ⟨[], by rw [he]; simp, by rw [he]; simp, by rw [he], by rw [he],
        by rw [he]; exact cbEvents_nil⟩

/-- `dbody` with its lets and record updates expanded. -/
theorem dbody_eq (total W : Nat) (results : Nat → PhoneResult) (stop : Nat → Bool)
    (sched : Nat → Nat → Bool) (st : DState) :
    dbody total W results stop sched st =
      ((topUp W stop st.remaining.length { st with clock := st.clock + 1 }).1 ++
        mkResEvents results total
          (topUp W stop st.remaining.length { st with clock := st.clock + 1 }).2.completed
          ((topUp W stop st.remaining.length { st with clock := st.clock + 1 }).2.futures.filter
            (fun i =>
              sched (topUp W stop st.remaining.length
                { st with clock := st.clock + 1 }).2.iter i)),
       ⟨(topUp W stop st.remaining.length { st with clock := st.clock + 1 }).2.futures.filter
          (fun i =>
            !sched (topUp W stop st.remaining.length { st with clock := st.clock + 1 }).2.iter i),
        (topUp W stop st.remaining.length { st with clock := st.clock + 1 }).2.remaining,
        (topUp W stop st.remaining.length { st with clock := st.clock + 1 }).2.completed +
          ((topUp W stop st.remaining.length { st with clock := st.clock + 1 }).2.futures.filter
            (fun i =>
              sched (topUp W stop st.remaining.length
                { st with clock := st.clock + 1 }).2.iter i)).length,
        (topUp W stop st.remaining.length { st with clock := st.clock + 1 }).2.clock,
        (topUp W stop st.remaining.length { st with clock := st.clock + 1 }).2.iter + 1⟩) := rfl

/-- One loop-body iteration with the stop flag never set: the callbacks
invoked are exactly one per future polled as done, counting on from the
state's counter; the futures and remaining queue are only rearranged minus
the processed ones. -/
theorem dbody_noStop (total W : Nat) (results : Nat → PhoneResult)
    (sched : Nat → Nat → Bool) (st : DState) : ∃ done : List Nat,
    cbEvents (dbody total W results (fun _ => false) sched st).1 =
      resTuples results total st.completed done ∧
    (done ++ (dbody total W results (fun _ => false) sched st).2.futures ++
        (dbody total W results (fun _ => false) sched st).2.remaining).Perm
      (st.futures ++ st.remaining) ∧
    (dbody total W results (fun _ => false) sched st).2.completed =
      st.completed + done.length := by
  obtain ⟨mv, h1, h2, h3, h4, h5⟩ :=
    topUp_noStop W st.remaining.length { st with clock := st.clock + 1 }
  dsimp only at h1 h2 h3 h4
  rw [dbody_eq]
  dsimp only
  refine ⟨(topUp W (fun _ => false) st.remaining.length
      { st with clock := st.clock + 1 }).2.futures.filter
      (fun i =>
        sched (topUp W (fun _ => false) st.remaining.length
          { st with clock := st.clock + 1 }).2.iter i), ?_, ?_, ?_⟩
  · rw [cbEvents_append, h5, cbEvents_mkResEvents, h3, List.nil_append]
  · have hfp := List.filter_append_perm
      (fun i =>
        sched (topUp W (fun _ => false) st.remaining.length
          { st with clock := st.clock + 1 }).2.iter i)
      (topUp W (fun _ => false) st.remaining.length { st with clock := st.clock + 1 }).2.futures
    have e2 : (topUp W (fun _ => false) st.remaining.length
          { st with clock := st.clock + 1 }).2.futures ++
        (topUp W (fun _ => false) st.remaining.length
          { st with clock := st.clock + 1 }).2.remaining = st.futures ++ st.remaining := by
      rw [h1, List.append_assoc, ← h2]
    rw [← e2]
    exact hfp.append_right _
  · rw [h3]

/-- The outer loop with the stop flag never set: the callbacks invoked are
one per processed future, counting on from the state's counter; the
processed futures together with what is still in flight or queued are a
permutation of what was in flight or queued at entry. -/
theorem dloop_noStop (total W : Nat) (results : Nat → PhoneResult)
    (sched : Nat → Nat → Bool) :
    ∀ (fuel : Nat) (st : DState), ∃ popped : List Nat,
      cbEvents (dloop total W results (fun _ => false) sched fuel st).1 =
        resTuples results total st.completed popped ∧
      (popped ++ (dloop total W results (fun _ => false) sched fuel st).2.futures ++
          (dloop total W results (fun _ => false) sched fuel st).2.remaining).Perm
        (st.futures ++ st.remaining) ∧
      (dloop total W results (fun _ => false) sched fuel st).2.completed =
        st.completed + popped.length := by
  intro fuel
  induction fuel with
  | zero =>
    intro st
    refine ⟨[], ?_, ?_, ?_⟩ <;> rw [dloop]
    · rfl
    · exact List.Perm.refl _
    · rfl
  | succ fuel ih =>
    intro st
    by_cases hempty : st.futures = [] ∧ st.remaining = []
    · have he : dloop total W results (fun _ => false) sched (fuel + 1) st = ([], st) := by
        rw [dloop, if_pos hempty]
      refine ⟨[], ?_, ?_, ?_⟩ <;> rw [he]
      · rfl
      · exact List.Perm.refl _
      · rfl
    · have he : dloop total W results (fun _ => false) sched (fuel + 1) st =
          ((dbody total W results (fun _ => false) sched st).1 ++
            (dloop total W results (fun _ => false) sched fuel
              (dbody total W results (fun _ => false) sched st).2).1,
           (dloop total W results (fun _ => false) sched fuel
              (dbody total W results (fun _ => false) sched st).2).2) := by
        rw [dloop, if_neg hempty, if_neg (by simp)]
      obtain ⟨done, b1, b2, b3⟩ := dbody_noStop total W results sched st
      obtain ⟨popped', d1, d2, d3⟩ := ih (dbody total W results (fun _ => false) sched st).2
      refine ⟨done ++ popped', ?_, ?_, ?_⟩
      · rw [he]
        dsimp only
        rw [cbEvents_append, b1, d1, b3, resTuples_append]
      · rw [he]
        dsimp only
        rw [List.append_assoc, List.append_assoc]
        rw [List.append_assoc] at d2 b2
        exact (List.Perm.append_left done d2).trans b2
      · rw [he]
        dsimp only
        rw [d3, b3, List.length_append]
        omega

/-- C2 (amended): a run with the stop flag never set that drains completely
invokes the callback exactly three times with `completedCount = 0` (the
announcement messages) followed by exactly one invocation per attempt,
carrying that attempt's result, with `completedCount` taking 1, …, n in
order. -/
theorem c2_progress_callback (n W : Nat) (results : Nat → PhoneResult)
    (sched : Nat → Nat → Bool) (fuel : Nat)
    (hf : (process_accounts_threaded n W results (fun _ => false) sched fuel).2.futures = [])
    (hr : (process_accounts_threaded n W results (fun _ => false) sched fuel).2.remaining = []) :
    ∃ perm : List Nat, perm.Perm (List.range n) ∧
      cbEvents (process_accounts_threaded n W results (fun _ => false) sched fuel).1 =
        (announceResult "Starting extraction...", 0, n) ::
        (announceResult ("Submitting first " ++ toString (min (W * 3) n) ++ " tasks..."), 0, n) ::
        (announceResult "Tasks submitted - awaiting first responses...", 0, n) ::
        resTuples results n 0 perm ∧
      (resTuples results n 0 perm).map (fun e => e.2.1) = List.range' 1 n := by
  obtain ⟨hsf, hsr, hsc, hsi, hse⟩ :=
    submitInitial_noStop (List.range (min (W * 3) n))
      ⟨[], List.range' (min (W * 3) n) (n - min (W * 3) n), 0, 0, 0⟩
  obtain ⟨popped, l1, l2, l3⟩ :=
    dloop_noStop n W results sched fuel
      (submitInitial (fun _ => false) (List.range (min (W * 3) n))
        ⟨[], List.range' (min (W * 3) n) (n - min (W * 3) n), 0, 0, 0⟩).2
  dsimp only at hsf hsr hsc hsi
  unfold process_accounts_threaded at hf hr ⊢
  dsimp only at hf hr ⊢
  have hrange : List.range (min (W * 3) n) ++
      List.range' (min (W * 3) n) (n - min (W * 3) n) = List.range n := by
    rw [List.range_eq_range', List.range_eq_range']
    have h := List.range'_append 0 (min (W * 3) n) (n - min (W * 3) n) 1
    simp only [Nat.zero_add, Nat.one_mul] at h
    rw [h, Nat.sub_add_cancel (Nat.min_le_right _ _)]
  have hperm : popped.Perm (List.range n) := by
    have := l2
    rw [hf, hr, List.append_nil, List.append_nil, hsf, hsr, List.nil_append, hrange] at this
    exact this
  refine ⟨popped, hperm, ?_, ?_⟩
  · rw [cbEvents_append, cbEvents_cons_cb, cbEvents_cons_cb, hse, cbEvents_cons_cb, l1, hsc]
    rfl
  · rw [resTuples_map_counts, hperm.length_eq, List.length_range]

theorem c2_progress_callback_witness :
    ∃ perm : List Nat, perm.Perm (List.range 1) ∧
      cbEvents (process_accounts_threaded 1 1
          (fun _ => PhoneResult.mk "a" "b" none false none false)
          (fun _ => false) (fun _ _ => true) 2).1 =
        (announceResult "Starting extraction...", 0, 1) ::
        (announceResult ("Submitting first " ++ toString (min (1 * 3) 1) ++ " tasks..."), 0, 1) ::
        (announceResult "Tasks submitted - awaiting first responses...", 0, 1) ::
        resTuples (fun _ => PhoneResult.mk "a" "b" none false none false) 1 0 perm ∧
      (resTuples (fun _ => PhoneResult.mk "a" "b" none false none false) 1 0 perm).map
        (fun e => e.2.1) = List.range' 1 1 :=
  c2_progress_callback 1 1 _ _ 2 (by decide) (by decide)

/-- C2 counterexample: a completed one-credential run invokes the callback
four times (three announcements with count 0 plus the attempt's result), not
exactly once as the claim states. -/
theorem c2_counterexample :
    (cbEvents (process_accounts_threaded 1 1
        (fun _ => PhoneResult.mk "a" "b" none false none false)
        (fun _ => false) (fun _ _ => true) 2).1).length = 4 ∧
    (cbEvents (process_accounts_threaded 1 1
        (fun _ => PhoneResult.mk "a" "b" none false none false)
        (fun _ => false) (fun _ _ => true) 2).1).length ≠ 1 := by decide

/-! ## Submissions happen only at stop-flag reads that returned false -/

theorem submitInitial_subClock (stop : Nat → Bool) :
    ∀ (l : List Nat) (st : DState) (i c : Nat),
      (i, c) ∈ subEvents (submitInitial stop l st).1 → stop c = false := by
  intro l
  induction l with
  | nil => intro st i c h; simp [submitInitial, subEvents] at h
  | cons j js ih =>
    intro st i c h
    rw [submitInitial] at h
    by_cases hs : stop st.clock = true
    · rw [if_pos hs] at h
      simp [subEvents] at h
    · rw [if_neg hs] at h
      dsimp only at h
      rw [subEvents_cons_sub] at h
      rcases List.mem_cons.mp h with heq | h'
      · cases heq
        exact Bool.eq_false_iff.mpr hs
      · exact ih _ _ _ h'

theorem topUp_subClock (W : Nat) (stop : Nat → Bool) :
    ∀ (fuel : Nat) (st : DState) (i c : Nat),
      (i, c) ∈ subEvents (topUp W stop fuel st).1 → stop c = false := by
  intro fuel
  induction fuel with
  | zero => intro st i c h; simp [topUp, subEvents] at h
  | succ fuel ih =>
    intro st i c h
    rw [topUp] at h
    by_cases hcond : st.futures.length < W * 5 ∧ st.remaining ≠ []
    · rw [if_pos hcond] at h
      by_cases hs : stop st.clock = true
      · rw [if_pos hs] at h
        simp [subEvents] at h
      · rw [if_neg hs] at h
        cases hr : st.remaining with
        | nil => exact absurd hr hcond.2
        | cons j js =>
          rw [hr] at h
          dsimp only at h
          rw [subEvents_cons_sub] at h
          rcases List.mem_cons.mp h with heq | h'
          · cases heq
            exact Bool.eq_false_iff.mpr hs
          · exact ih _ _ _ h'
    · rw [if_neg hcond] at h
      simp [subEvents] at h

theorem dbody_subClock (total W : Nat) (results : Nat → PhoneResult) (stop : Nat → Bool)
    (sched : Nat → Nat → Bool) (st : DState) (i c : Nat)
    (h : (i, c) ∈ subEvents (dbody total W results stop sched st).1) : stop c = false := by
  rw [dbody_eq] at h
  dsimp only at h
  rw [subEvents_append, subEvents_mkResEvents, List.append_nil] at h
  exact topUp_subClock W stop _ _ i c h

theorem dloop_subClock (total W : Nat) (results : Nat → PhoneResult) (stop : Nat → Bool)
    (sched : Nat → Nat → Bool) :
    ∀ (fuel : Nat) (st : DState) (i c : Nat),
      (i, c) ∈ subEvents (dloop total W results stop sched fuel st).1 → stop c = false := by
  intro fuel
  induction fuel with
  | zero => intro st i c h; simp [dloop, subEvents] at h
  | succ fuel ih =>
    intro st i c h
    rw [dloop] at h
    by_cases hempty : st.futures = [] ∧ st.remaining = []
    · rw [if_pos hempty] at h
      simp [subEvents] at h
    · rw [if_neg hempty] at h
      by_cases hs : stop st.clock = true
      · rw [if_pos hs] at h
        simp [subEvents] at h
      · rw [if_neg hs] at h
        dsimp only at h
        rw [subEvents_append] at h
        rcases List.mem_append.mp h with h' | h'
        · exact dbody_subClock total W results stop sched st i c h'
        · exact ih _ _ _ h'

theorem pat_subClock (n W : Nat) (results : Nat → PhoneResult) (stop : Nat → Bool)
    (sched : Nat → Nat → Bool) (fuel : Nat) (i c : Nat)
    (h : (i, c) ∈ subEvents (process_accounts_threaded n W results stop sched fuel).1) :
    stop c = false := by
  unfold process_accounts_threaded at h
  dsimp only at h
  rw [subEvents_append, subEvents_cons_cb, subEvents_cons_cb, subEvents_cons_cb] at h
  rcases List.mem_append.mp h with h' | h'
  · exact submitInitial_subClock stop _ _ i c h'
  · exact dloop_subClock n W results stop sched _ _ i c h'

theorem stop_mono_ge {stop : Nat → Bool} (hm : ∀ c, stop c = true → stop (c + 1) = true)
    {T c : Nat} (hT : stop T = true) (hle : T ≤ c) : stop c = true := by
  induction hle with
  | refl => exact hT
  | step h ih => exact hm _ ih

/-- C9: once the cooperative flag is set (monotone in the clock of flag
reads, set by time `T`), every submission the dispatcher performs was
admitted by a flag read strictly before `T`; and a runner entered with the
flag set returns the "Process stopped" failure without invoking any session
operation. -/
theorem c9_cancellation :
    (∀ (n W : Nat) (results : Nat → PhoneResult) (stop : Nat → Bool)
       (sched : Nat → Nat → Bool) (fuel T : Nat),
       (∀ c, stop c = true → stop (c + 1) = true) → stop T = true →
       ∀ i c, (i, c) ∈ subEvents (process_accounts_threaded n W results stop sched fuel).1 →
         c < T) ∧
    (∀ (o : SessionOracle) (u p : String),
       process_single_account true o u p =
         (⟨u, p, none, false, some "Process stopped", false⟩, [])) := by
  constructor
  · intro n W results stop sched fuel T hmono hT i c hmem
    have hc : stop c = false := pat_subClock n W results stop sched fuel i c hmem
    by_contra hlt
    push_neg at hlt
    rw [stop_mono_ge hmono hT hlt] at hc
    cases hc
  · intro o u p
    unfold process_single_account
    rw [if_pos rfl]

theorem c9_cancellation_witness :
    (∀ i c, (i, c) ∈ subEvents (process_accounts_threaded 1 1
        (fun _ => PhoneResult.mk "a" "b" none false none false)
        (fun c => decide (1 ≤ c)) (fun _ _ => true) 3).1 → c < 1) ∧
    process_single_account true
        ⟨HttpResp.resp 200, HttpResp.resp 200, true, HttpResp.resp 200, HttpResp.resp 200, []⟩
        "u" "p" =
      (⟨"u", "p", none, false, some "Process stopped", false⟩, []) := by
  constructor
  · exact c9_cancellation.1 1 1 _ _ _ 3 1
      (fun c h => by simp only [decide_eq_true_eq] at h ⊢; omega) (by decide)
  · exact c9_cancellation.2 _ "u" "p"

end Conforama
